import Mathlib

/-!
Verification development for the FTL-SIM SSD simulator core.

The definitions below are a shallow embedding of the Python sources:
src/event.py, src/ftl.py, src/request.py, src/cache.py,
src/nand.py, src/nand_scheduler.py and src/frontend_scheduler.py.

Python floats that carry simulated time are modelled as integers:
every latency parameter in the source is an integral number of
microseconds, and only order and addition of such values are used.
Mutable object fields are threaded as explicit state.  The mutable
boolean flags `canceled` and `dispatched` that live on the Python
Event object are modelled as loop state keyed by the unique sequence
number that `schedule_event` stamps on every event; payloads are
modelled per subsystem.
-/

namespace FTLSim

/-! ## src/event.py : EventType, Event, EventLoop -/

/-- The EventType enum of src/event.py. -/
inductive EvType where
  | REQUEST_ARRIVAL
  | REQUEST_COMPLETE
  | DMA_COMPLETE
  | NAND_READ_COMPLETE
  | NAND_WRITE_COMPLETE
  | CACHE_READ_COMPLETE
  | CACHE_WRITE_COMPLETE
  | CACHE_FLUSH_START
  | CACHE_FLUSH_COMPLETE
  | FRONTEND_SCHEDULE
  | NAND_SCHEDULE
deriving DecidableEq, Repr

/-- An Event after `schedule_event` has stamped its sequence number.
The Python dataclass has order=True with compare fields
(time_us, seq); ev_type, payload, canceled and dispatched do not
take part in comparison. -/
structure Ev where
  time_us : ℤ
  ev_type : EvType
  seq : ℕ
deriving DecidableEq, Repr

/-- An Event as a handler constructs it, before the loop assigns seq. -/
structure PreEv where
  time_us : ℤ
  ev_type : EvType
deriving DecidableEq, Repr

/-- The heapq comparison on Events: lexicographic on (time_us, seq),
strict version. -/
def evLexLt (a b : Ev) : Prop :=
  a.time_us < b.time_us ∨ (a.time_us = b.time_us ∧ a.seq < b.seq)

/-- The heapq comparison on Events: lexicographic on (time_us, seq),
non-strict version. -/
def evLexLe (a b : Ev) : Prop :=
  a.time_us < b.time_us ∨ (a.time_us = b.time_us ∧ a.seq ≤ b.seq)

instance (a b : Ev) : Decidable (evLexLt a b) := by
  unfold evLexLt; infer_instance

instance (a b : Ev) : Decidable (evLexLe a b) := by
  unfold evLexLe; infer_instance

/-- State of the EventLoop of src/event.py: the binary heap is
modelled as the multiset (list) of queued events, `_seq` as the
counter, the per-event canceled flags as the list of canceled
sequence numbers. -/
structure LoopState where
  heap : List Ev
  counter : ℕ
  canceled : List ℕ
  time_us : ℤ
deriving DecidableEq, Repr

/-- EventLoop.schedule_event: assign the next sequence number and
push onto the heap. -/
def schedule_event (s : LoopState) (p : PreEv) : LoopState :=
  { s with
    heap := { time_us := p.time_us, ev_type := p.ev_type, seq := s.counter } :: s.heap,
    counter := s.counter + 1 }

/-- Schedule a batch of events in order. -/
def scheduleAll (s : LoopState) (ps : List PreEv) : LoopState :=
  ps.foldl schedule_event s

/-- EventLoop.cancel_event: set the tombstone flag; the event stays
in the heap. -/
def cancel_event (s : LoopState) (e : Ev) : LoopState :=
  { s with canceled := e.seq :: s.canceled }

/-- Record a batch of cancellations. -/
def cancelMany (s : LoopState) (cs : List ℕ) : LoopState :=
  { s with canceled := s.canceled ++ cs }

/-- Extraction of the heap minimum (heapq.heappop): returns the
lexicographically least event and the remaining multiset. -/
def popMin : List Ev → Option (Ev × List Ev)
  | [] => none
  | e :: es =>
    match popMin es with
    | none => some (e, [])
    | some (m, rest) =>
      if evLexLe e m then some (e, es) else some (m, e :: rest)

/-- A handler, as the loop sees it: given the dispatched event and
the loop state it may build new events to schedule and cancel
existing ones (identified by their sequence numbers). -/
def HandlerFn : Type :=
  Ev → LoopState → List PreEv × List ℕ

/-- The until_us check of EventLoop.run. -/
def pastUntil (untilUs : Option ℤ) (t : ℤ) : Bool :=
  match untilUs with
  | none => false
  | some u => decide (u < t)

/-- The state change of one dispatch: advance the clock, run the
handler, schedule what it built and record what it canceled. -/
def dispatchStep (H : HandlerFn) (e : Ev) (s1 : LoopState) : LoopState :=
  cancelMany (scheduleAll s1 (H e s1).1) (H e s1).2

/-- EventLoop.run: repeatedly pop the least event; stop (keeping the
event) once it is past until_us; skip canceled events; otherwise
advance time and dispatch.  Returns the list of dispatched events,
the final state, and whether the loop stopped on its own (rather
than by fuel exhaustion). -/
def runLoop (H : HandlerFn) : ℕ → Option ℤ → LoopState → List Ev × LoopState × Bool
  | 0, _, s => ([], s, false)
  | Nat.succ fuel, untilUs, s =>
    match popMin s.heap with
    | none => ([], s, true)
    | some (e, rest) =>
      if pastUntil untilUs e.time_us then
        ([], { s with heap := e :: rest }, true)
      else if e.seq ∈ s.canceled then
        runLoop H fuel untilUs { s with heap := rest }
      else
        let s2 := dispatchStep H e { s with heap := rest, time_us := e.time_us }
        let res := runLoop H fuel untilUs s2
        (e :: res.1, res.2)

/-- Hypothesis of the ordering guarantee: handlers only schedule
events at times at or after the time of the event being handled
(the current simulated time). -/
def HandlerMono (H : HandlerFn) : Prop :=
  ∀ e s p, p ∈ (H e s).1 → e.time_us ≤ p.time_us

/-- Well-formedness that schedule_event maintains: every queued
event carries a sequence number below the counter, and no two
queued events share a sequence number. -/
def WFheap (s : LoopState) : Prop :=
  (∀ e ∈ s.heap, e.seq < s.counter) ∧
  s.heap.Pairwise (fun a b => a.seq ≠ b.seq)

/-- Lower bound on events, used while reasoning about the run. -/
def lbLt : Option Ev → Ev → Prop
  | none, _ => True
  | some a, e => evLexLt a e

/-! ## src/request.py and src/nand.py data types -/

/-- The RequestType enum of src/request.py. -/
inductive RequestType where
  | READ
  | WRITE
  | FLUSH
deriving DecidableEq, Repr

/-- The RequestStatus enum of src/request.py. -/
inductive RequestStatus where
  | READY
  | IN_PROGRESS
  | COMPLETED
deriving DecidableEq, Repr

/-- A Request of src/request.py, with the fields the core reads
(the timing bookkeeping fields are not consulted by any claim). -/
structure Request where
  id : ℕ
  type : RequestType
  lba : ℕ
  fua : Bool
  status : RequestStatus
deriving DecidableEq, Repr

/-- PhysicalAddress of src/nand.py. -/
structure PhysicalAddress where
  channel : ℕ
  die : ℕ
  plane : ℕ
  block : ℕ
  page : ℕ
deriving DecidableEq, Repr

/-- NANDTransactionType of src/nand.py. -/
inductive NANDTransactionType where
  | READ
  | WRITE
  | FLUSH
deriving DecidableEq, Repr

/-- The payload slot of events and NAND transactions (Optional object
in Python): a Request, a CachePage identified by its lpa, or nothing.
Note the source NANDTransaction has no depends_on field. -/
inductive EvPayload where
  | noPayload
  | reqPayload (r : Request)
  | pagePayload (lpa : ℕ)
deriving DecidableEq, Repr

/-- NANDTransaction of src/nand.py (type, pa, start_time, payload;
the callback slot is modelled by the completion plumbing of the
owning subsystem). -/
structure NANDTransaction where
  type : NANDTransactionType
  pa : PhysicalAddress
  start_time : ℤ := 0
  payload : EvPayload := EvPayload.noPayload
deriving DecidableEq, Repr

/-! ## Association lists standing in for Python dicts -/

/-- dict lookup. -/
def dictGet {α : Type} : List (ℕ × α) → ℕ → Option α
  | [], _ => none
  | (k1, v1) :: rest, k => if k1 = k then some v1 else dictGet rest k

/-- dict membership test (the Python `in` operator). -/
def dictContains {α : Type} (m : List (ℕ × α)) (k : ℕ) : Bool :=
  (dictGet m k).isSome

/-- dict assignment m[k] = v. -/
def dictInsert {α : Type} : List (ℕ × α) → ℕ → α → List (ℕ × α)
  | [], k, v => [(k, v)]
  | (k1, v1) :: rest, k, v =>
    if k1 = k then (k, v) :: rest else (k1, v1) :: dictInsert rest k v

/-- dict deletion del m[k]. -/
def dictErase {α : Type} : List (ℕ × α) → ℕ → List (ℕ × α)
  | [], _ => []
  | (k1, v1) :: rest, k =>
    if k1 = k then rest else (k1, v1) :: dictErase rest k

/-- Python set.add on a list representation of a set of ints. -/
def setAdd (x : ℕ) (xs : List ℕ) : List ℕ :=
  if x ∈ xs then xs else x :: xs

/-! ## src/ftl.py : FlashTranslationLayer -/

/-- FlashTranslationLayer state: the lpa to ppa mapping, the stub
allocation counter, and lbas_per_page (2 in the source). -/
structure FlashTranslationLayer where
  mapping : List (ℕ × PhysicalAddress)
  counter : ℕ
  lbas_per_page : ℕ
deriving DecidableEq, Repr

/-- FlashTranslationLayer.allocate: reserve PhysicalAddress
(0, 0, 0, 0, counter), bump the counter, update the mapping. -/
def FlashTranslationLayer.allocate (ftl : FlashTranslationLayer) (lpa : ℕ) :
    PhysicalAddress × FlashTranslationLayer :=
  let pa : PhysicalAddress := { channel := 0, die := 0, plane := 0, block := 0, page := ftl.counter }
  (pa, { ftl with counter := ftl.counter + 1, mapping := dictInsert ftl.mapping lpa pa })

/-- FlashTranslationLayer.lpa_to_ppa: if lpa is unmapped, first call
allocate (a side effect), then look the lpa up; returns the lookup
result together with the possibly mutated FTL state. -/
def FlashTranslationLayer.lpa_to_ppa (ftl : FlashTranslationLayer) (lpa : ℕ) :
    Option PhysicalAddress × FlashTranslationLayer :=
  if dictContains ftl.mapping lpa then (dictGet ftl.mapping lpa, ftl)
  else
    let ftl1 := (ftl.allocate lpa).2
    (dictGet ftl1.mapping lpa, ftl1)

/-- FlashTranslationLayer.lba_to_lpa: integer division by
lbas_per_page. -/
def FlashTranslationLayer.lba_to_lpa (ftl : FlashTranslationLayer) (lba : ℕ) : ℕ :=
  lba / ftl.lbas_per_page

/-! ## src/cache.py : CachePage and WriteCache -/

/-- CachePageState enum of src/cache.py. -/
inductive CachePageState where
  | DIRTY
  | FLUSH_SCHEDULED
  | FLUSHING
deriving DecidableEq, Repr

/-- CachePage of src/cache.py.  The Python set of lbas is a
duplicate-free list; latest_flush_event stores the scheduled
CACHE_FLUSH_START event. -/
structure CachePage where
  lpa : ℕ
  status : CachePageState
  lbas : List ℕ
  latest_flush_event : Option Ev
deriving DecidableEq, Repr

/-- Python == on Event objects.  The dataclass is declared with
order=True, so equality compares exactly the compare=True fields
(time_us, seq); comparison with None is False. -/
def pyEventEq (e : Ev) : Option Ev → Prop
  | none => False
  | some f => e.time_us = f.time_us ∧ e.seq = f.seq

instance (e : Ev) (o : Option Ev) : Decidable (pyEventEq e o) := by
  cases o <;> simp [pyEventEq] <;> infer_instance

/-- State of the WriteCache together with the slice of the event
loop and NAND scheduler environment it interacts with: scheduled
CACHE_WRITE_COMPLETE / CACHE_READ_COMPLETE / CACHE_FLUSH_START
events it has not yet received back, the tombstoned sequence
numbers, the events it emitted (REQUEST_COMPLETE and
FRONTEND_SCHEDULE), the NAND transactions handed to the NAND
scheduler and the indices of those whose NAND write has
completed. -/
structure WriteCacheState where
  cache : List (ℕ × CachePage)
  busy : Bool
  ftl : FlashTranslationLayer
  num_pages : ℕ
  write_us : ℤ
  read_us : ℤ
  writeback_delay : ℤ
  time_us : ℤ
  seqCounter : ℕ
  pendingCWC : List (Ev × Request)
  pendingCRC : List (Ev × Request)
  pendingFlush : List (Ev × ℕ)
  canceled : List ℕ
  emitted : List (Ev × EvPayload)
  issued : List NANDTransaction
  completedTxn : List ℕ
deriving DecidableEq, Repr

/-- WriteCache.contains: the page for lba_to_lpa(lba) is resident
and holds lba. -/
def WriteCacheState.contains (s : WriteCacheState) (lba : ℕ) : Bool :=
  match dictGet s.cache (s.ftl.lba_to_lpa lba) with
  | some p => decide (lba ∈ p.lbas)
  | none => false

/-- WriteCache.can_hold: the page is resident or there is room for
a new one. -/
def WriteCacheState.can_hold (s : WriteCacheState) (lba : ℕ) : Bool :=
  dictContains s.cache (s.ftl.lba_to_lpa lba) || decide (s.cache.length < s.num_pages)

/-- WriteCache.get: asserts not busy and contains; marks busy and
schedules CACHE_READ_COMPLETE at now + read_us.  A failed assertion
is modelled as none. -/
def WriteCacheState.get (s : WriteCacheState) (r : Request) : Option WriteCacheState :=
  if s.busy then none
  else if ¬ s.contains r.lba then none
  else
    let ev : Ev := { time_us := s.time_us + s.read_us, ev_type := EvType.CACHE_READ_COMPLETE,
                     seq := s.seqCounter }
    some { s with busy := true,
                  seqCounter := s.seqCounter + 1,
                  pendingCRC := s.pendingCRC ++ [(ev, r)] }

/-- WriteCache.put: asserts not busy and can_hold; locates or
creates the CachePage; if the page is FLUSH_SCHEDULED it cancels
latest_flush_event (asserting it is not None); re-dirties the page
and schedules CACHE_WRITE_COMPLETE at now + write_us. -/
def WriteCacheState.put (s : WriteCacheState) (r : Request) : Option WriteCacheState :=
  if s.busy then none
  else if ¬ s.can_hold r.lba then none
  else
    let lpa := s.ftl.lba_to_lpa r.lba
    let page := match dictGet s.cache lpa with
      | some p => p
      | none => { lpa := lpa, status := CachePageState.DIRTY, lbas := [],
                  latest_flush_event := none }
    let canceled1 : Option (List ℕ) :=
      if page.status = CachePageState.FLUSH_SCHEDULED then
        match page.latest_flush_event with
        | none => none
        | some f => some (f.seq :: s.canceled)
      else some s.canceled
    match canceled1 with
    | none => none
    | some cs =>
      let page1 := { page with status := CachePageState.DIRTY }
      let ev : Ev := { time_us := s.time_us + s.write_us, ev_type := EvType.CACHE_WRITE_COMPLETE,
                       seq := s.seqCounter }
      some { s with busy := true,
                    cache := dictInsert s.cache lpa page1,
                    canceled := cs,
                    seqCounter := s.seqCounter + 1,
                    pendingCWC := s.pendingCWC ++ [(ev, r)] }

/-- WriteCache._handle_cache_write_complete: clear busy, emit
REQUEST_COMPLETE for the request and FRONTEND_SCHEDULE (both at the
current time, in that order), coalesce the lba into the page,
transition it to FLUSH_SCHEDULED and schedule CACHE_FLUSH_START at
now + writeback_delay, recording it as latest_flush_event.  The
source indexes self.cache[lpa] directly; a missing page (KeyError)
is modelled as none. -/
def WriteCacheState.handle_cache_write_complete (s : WriteCacheState) (r : Request) :
    Option WriteCacheState :=
  let lpa := s.ftl.lba_to_lpa r.lba
  match dictGet s.cache lpa with
  | none => none
  | some page =>
    let evC : Ev := { time_us := s.time_us, ev_type := EvType.REQUEST_COMPLETE,
                      seq := s.seqCounter }
    let evF : Ev := { time_us := s.time_us, ev_type := EvType.FRONTEND_SCHEDULE,
                      seq := s.seqCounter + 1 }
    let evW : Ev := { time_us := s.time_us + s.writeback_delay,
                      ev_type := EvType.CACHE_FLUSH_START, seq := s.seqCounter + 2 }
    let page1 := { page with lbas := setAdd r.lba page.lbas,
                             status := CachePageState.FLUSH_SCHEDULED,
                             latest_flush_event := some evW }
    some { s with busy := false,
                  emitted := s.emitted ++ [(evC, EvPayload.reqPayload r), (evF, EvPayload.noPayload)],
                  cache := dictInsert s.cache lpa page1,
                  pendingFlush := s.pendingFlush ++ [(evW, lpa)],
                  seqCounter := s.seqCounter + 3 }

/-- WriteCache._handle_cache_read_complete: clear busy and emit
REQUEST_COMPLETE for the request at the current time. -/
def WriteCacheState.handle_cache_read_complete (s : WriteCacheState) (r : Request) :
    WriteCacheState :=
  let evC : Ev := { time_us := s.time_us, ev_type := EvType.REQUEST_COMPLETE,
                    seq := s.seqCounter }
  { s with busy := false,
           emitted := s.emitted ++ [(evC, EvPayload.reqPayload r)],
           seqCounter := s.seqCounter + 1 }

/-- WriteCache._handle_writeback_start: asserts not busy and that
the page is resident, marks it FLUSHING and issues a single NAND
WRITE transaction at a freshly allocated physical address, carrying
the page as payload.  The read-modify-write branch of the source is
commented out, so no NAND READ is ever issued here and the
transaction has no depends_on. -/
def WriteCacheState.handle_writeback_start (s : WriteCacheState) (lpa : ℕ) :
    Option WriteCacheState :=
  if s.busy then none
  else
    match dictGet s.cache lpa with
    | none => none
    | some page =>
      let page1 := { page with status := CachePageState.FLUSHING }
      let alloc := s.ftl.allocate lpa
      let txn : NANDTransaction :=
        { type := NANDTransactionType.WRITE, pa := alloc.1, start_time := 0,
          payload := EvPayload.pagePayload lpa }
      some { s with cache := dictInsert s.cache lpa page1,
                    ftl := alloc.2,
                    issued := s.issued ++ [txn] }

/-- WriteCache._handle_writeback_complete: evict the page carried by
the completed transaction if and only if it is still FLUSHING and
the dispatched NAND_WRITE_COMPLETE event compares equal (Python ==,
i.e. equal (time_us, seq)) to the page latest_flush_event. -/
def WriteCacheState.handle_writeback_complete (s : WriteCacheState) (evN : Ev) (lpa : ℕ) :
    WriteCacheState :=
  match dictGet s.cache lpa with
  | none => s
  | some page =>
    if page.status = CachePageState.FLUSHING ∧ pyEventEq evN page.latest_flush_event then
      { s with cache := dictErase s.cache lpa }
    else s

/-- Invocations the environment (event loop, frontend, NAND) can
make on the WriteCache: a frontend put at an arrival time, firing a
pending CACHE_WRITE_COMPLETE or CACHE_FLUSH_START event by its
index, and completion of an issued NAND write at a time. -/
inductive WCOp where
  | opPut (r : Request) (t : ℤ)
  | opCWC (i : ℕ)
  | opFlush (i : ℕ)
  | opNandComplete (i : ℕ) (t : ℤ)
deriving DecidableEq, Repr

/-- One environment step on the WriteCache.  Guards encode what the
event loop enforces: simulated time is monotone, an event fires only
if it is still pending and not tombstoned, and a NAND completion
only for an issued, not yet completed WRITE transaction.  none means
the step is not enabled (or an assertion in the handler failed). -/
def WCstep (s : WriteCacheState) : WCOp → Option WriteCacheState
  | WCOp.opPut r t =>
    if s.time_us ≤ t then WriteCacheState.put { s with time_us := t } r else none
  | WCOp.opCWC i =>
    match s.pendingCWC.get? i with
    | none => none
    | some (ev, r) =>
      if s.time_us ≤ ev.time_us ∧ ev.seq ∉ s.canceled then
        WriteCacheState.handle_cache_write_complete
          { s with time_us := ev.time_us, pendingCWC := s.pendingCWC.eraseIdx i } r
      else none
  | WCOp.opFlush i =>
    match s.pendingFlush.get? i with
    | none => none
    | some (ev, lpa) =>
      if s.time_us ≤ ev.time_us ∧ ev.seq ∉ s.canceled then
        WriteCacheState.handle_writeback_start
          { s with time_us := ev.time_us, pendingFlush := s.pendingFlush.eraseIdx i } lpa
      else none
  | WCOp.opNandComplete i t =>
    match s.issued.get? i with
    | none => none
    | some txn =>
      if s.time_us ≤ t ∧ i ∉ s.completedTxn ∧ txn.type = NANDTransactionType.WRITE then
        match txn.payload with
        | EvPayload.pagePayload lpa =>
          some (WriteCacheState.handle_writeback_complete
            { s with time_us := t, completedTxn := i :: s.completedTxn,
                     seqCounter := s.seqCounter + 1 }
            { time_us := t, ev_type := EvType.NAND_WRITE_COMPLETE, seq := s.seqCounter } lpa)
        | _ => none
      else none

/-- Run a sequence of environment steps. -/
def WCrun (s : WriteCacheState) (ops : List WCOp) : Option WriteCacheState :=
  ops.foldlM WCstep s

/-- Number of writeback (NAND WRITE) transactions for the given lpa
that have been issued but whose completion has not been processed. -/
def activeWritebacks (s : WriteCacheState) (lpa : ℕ) : ℕ :=
  ((List.range s.issued.length).filter (fun i =>
    decide (i ∉ s.completedTxn) &&
    match s.issued.get? i with
    | some txn =>
      decide (txn.payload = EvPayload.pagePayload lpa) &&
      decide (txn.type = NANDTransactionType.WRITE)
    | none => false)).length

/-- The WriteCache as constructed in the source: num_pages = 2,
write_us = read_us = 10, writeback_delay = 500, an empty cache and
the stub FTL with lbas_per_page = 2. -/
def WCinit : WriteCacheState :=
  { cache := [], busy := false,
    ftl := { mapping := [], counter := 0, lbas_per_page := 2 },
    num_pages := 2, write_us := 10, read_us := 10, writeback_delay := 500,
    time_us := 0, seqCounter := 0, pendingCWC := [], pendingCRC := [], pendingFlush := [],
    canceled := [], emitted := [], issued := [], completedTxn := [] }

/-! ## src/nand.py : Die, Channel, NAND -/

/-- A Channel of src/nand.py.  dies is the list of per-die busy
flags.  The scheduled delay events are modelled as pending lists:
inflightDMA holds transactions whose DMA_COMPLETE is scheduled,
inflightReadOps those inside the read_us latency, inflightPrograms
those inside the program_us latency.  completedTxns records the
transactions whose terminal callback fired. -/
structure ChannelState where
  dma_queue : List NANDTransaction
  busy : Bool
  dies : List Bool
  inflightDMA : List NANDTransaction
  inflightReadOps : List NANDTransaction
  inflightPrograms : List NANDTransaction
  completedTxns : List NANDTransaction
deriving DecidableEq, Repr

/-- Channel.is_ready: the targeted die is not busy.  An out of range
die index raises IndexError in the source; it is modelled as not
ready (no claim exercises it). -/
def ChannelState.is_ready (c : ChannelState) (pa : PhysicalAddress) : Bool :=
  match c.dies.get? pa.die with
  | some b => !b
  | none => false

/-- Channel.do_dma: if the channel is busy, append to the FIFO
dma_queue; otherwise mark the channel busy and schedule the DMA
completion. -/
def ChannelState.do_dma (c : ChannelState) (txn : NANDTransaction) : ChannelState :=
  if c.busy then { c with dma_queue := c.dma_queue ++ [txn] }
  else { c with busy := true, inflightDMA := c.inflightDMA ++ [txn] }

/-- The read transfer done callback: clear the die busy flag and
invoke the transaction callback (recorded in completedTxns). -/
def ChannelState.read_transfer_done (c : ChannelState) (txn : NANDTransaction) : ChannelState :=
  { c with dies := c.dies.set txn.pa.die false,
           completedTxns := c.completedTxns ++ [txn] }

/-- The write transfer done callback: schedule the program_us
delay. -/
def ChannelState.write_transfer_done (c : ChannelState) (txn : NANDTransaction) : ChannelState :=
  { c with inflightPrograms := c.inflightPrograms ++ [txn] }

/-- Channel._handle_dma_complete for the oldest in-flight DMA:
start the next queued DMA if any, else clear the channel busy flag;
then run the per-type transfer done callback.  none when no DMA is
in flight (no such event can be dispatched then). -/
def ChannelState.handle_dma_complete (c : ChannelState) : Option ChannelState :=
  match c.inflightDMA with
  | [] => none
  | txn :: restIn =>
    let c1 :=
      match c.dma_queue with
      | nextReq :: rest =>
        { c with inflightDMA := restIn ++ [nextReq], dma_queue := rest }
      | [] => { c with inflightDMA := restIn, busy := false }
    match txn.type with
    | NANDTransactionType.READ => some (c1.read_transfer_done txn)
    | NANDTransactionType.WRITE => some (c1.write_transfer_done txn)
    | NANDTransactionType.FLUSH => some c1

/-- Channel._write_done_callback for the oldest in-flight program:
clear the die busy flag and invoke the transaction callback. -/
def ChannelState.handle_program_complete (c : ChannelState) : Option ChannelState :=
  match c.inflightPrograms with
  | [] => none
  | txn :: restP =>
    some { c with inflightPrograms := restP,
                  dies := c.dies.set txn.pa.die false,
                  completedTxns := c.completedTxns ++ [txn] }

/-- Channel._read_done_callback for the oldest pending read: the
cell read latency elapsed, queue the DMA transfer. -/
def ChannelState.handle_read_op_complete (c : ChannelState) : Option ChannelState :=
  match c.inflightReadOps with
  | [] => none
  | txn :: restR => some ((({ c with inflightReadOps := restR }) : ChannelState).do_dma txn)

/-- Channel.write_page: asserts the die is ready, marks it busy and
queues the DMA transfer. -/
def ChannelState.write_page (c : ChannelState) (txn : NANDTransaction) : Option ChannelState :=
  if c.is_ready txn.pa then
    some ((({ c with dies := c.dies.set txn.pa.die true }) : ChannelState).do_dma txn)
  else none

/-- Channel.read_page: asserts the die is ready, marks it busy and
schedules the read_us latency. -/
def ChannelState.read_page (c : ChannelState) (txn : NANDTransaction) : Option ChannelState :=
  if c.is_ready txn.pa then
    some { c with dies := c.dies.set txn.pa.die true,
                  inflightReadOps := c.inflightReadOps ++ [txn] }
  else none

/-- NAND of src/nand.py: the channels plus the operation counters. -/
structure NANDState where
  channels : List ChannelState
  num_reads : ℕ
  num_writes : ℕ
deriving DecidableEq, Repr

/-- NAND.is_ready: delegate to the channel of the address.  An out
of range channel index raises IndexError in the source; modelled as
not ready. -/
def NANDState.is_ready (n : NANDState) (pa : PhysicalAddress) : Bool :=
  match n.channels.get? pa.channel with
  | some c => c.is_ready pa
  | none => false

/-- NAND.write_page: count the write and delegate to the channel. -/
def NANDState.write_page (n : NANDState) (txn : NANDTransaction) : Option NANDState :=
  match n.channels.get? txn.pa.channel with
  | none => none
  | some c =>
    (c.write_page txn).map (fun c1 =>
      { n with channels := n.channels.set txn.pa.channel c1,
               num_writes := n.num_writes + 1 })

/-- NAND.read_page: count the read and delegate to the channel. -/
def NANDState.read_page (n : NANDState) (txn : NANDTransaction) : Option NANDState :=
  match n.channels.get? txn.pa.channel with
  | none => none
  | some c =>
    (c.read_page txn).map (fun c1 =>
      { n with channels := n.channels.set txn.pa.channel c1,
               num_reads := n.num_reads + 1 })

/-- Steps the environment can take on a single channel. -/
inductive ChOp where
  | opDoDma (txn : NANDTransaction)
  | opDmaComplete
  | opReadPage (txn : NANDTransaction)
  | opReadOpComplete
  | opWritePage (txn : NANDTransaction)
  | opProgramComplete
deriving DecidableEq, Repr

/-- One channel step; a step that is not enabled (no corresponding
scheduled event, or an assertion failure) leaves the channel
unchanged, so invariants range over every interleaving. -/
def chStep (c : ChannelState) : ChOp → ChannelState
  | ChOp.opDoDma txn => c.do_dma txn
  | ChOp.opDmaComplete => (c.handle_dma_complete).getD c
  | ChOp.opReadPage txn => (c.read_page txn).getD c
  | ChOp.opReadOpComplete => (c.handle_read_op_complete).getD c
  | ChOp.opWritePage txn => (c.write_page txn).getD c
  | ChOp.opProgramComplete => (c.handle_program_complete).getD c

/-- Run a sequence of channel steps. -/
def chRun (c : ChannelState) (ops : List ChOp) : ChannelState :=
  ops.foldl chStep c

/-- A freshly constructed channel with the given number of dies. -/
def chInit (numDies : ℕ) : ChannelState :=
  { dma_queue := [], busy := false, dies := List.replicate numDies false,
    inflightDMA := [], inflightReadOps := [], inflightPrograms := [], completedTxns := [] }

/-- The per-channel DMA discipline invariant: at most one DMA in
flight, the busy flag tracks exactly whether one is in flight, and
transfers wait in dma_queue only while one is in flight. -/
def ChInv (c : ChannelState) : Prop :=
  c.inflightDMA.length ≤ 1 ∧
  (c.busy = true ↔ c.inflightDMA ≠ []) ∧
  (c.dma_queue ≠ [] → c.busy = true)

/-! ## src/nand_scheduler.py : MockScheduler -/

/-- MockScheduler state: a single FIFO submission queue (the
num_reads / num_writes counters of the class are never updated in
the source and are omitted). -/
structure MockScheduler where
  queue : List NANDTransaction
deriving DecidableEq, Repr

/-- MockScheduler.submit: append to the FIFO queue. -/
def MockScheduler.submit (s : MockScheduler) (txn : NANDTransaction) : MockScheduler :=
  { s with queue := s.queue ++ [txn] }

/-- MockScheduler.try_dispatch: inspect only the head of the queue;
if the target die is ready, pop it, stamp start_time with the
current simulated time and hand it to the NAND (write_page or
read_page); otherwise leave everything unchanged.  A FLUSH head
raises NotImplementedError (none); the source NANDTransaction has
no depends_on field, so there is no dependency check.  Returns the
scheduler, the NAND and the dispatched transaction if any. -/
def try_dispatch (s : MockScheduler) (n : NANDState) (now : ℤ) :
    Option (MockScheduler × NANDState × Option NANDTransaction) :=
  match s.queue with
  | [] => some (s, n, none)
  | t :: rest =>
    if n.is_ready t.pa then
      let t1 := { t with start_time := now }
      match t1.type with
      | NANDTransactionType.WRITE =>
        (n.write_page t1).map (fun n1 => ({ queue := rest }, n1, some t1))
      | NANDTransactionType.READ =>
        (n.read_page t1).map (fun n1 => ({ queue := rest }, n1, some t1))
      | NANDTransactionType.FLUSH => none
    else some (s, n, none)

/-! ## src/frontend_scheduler.py : FrontendScheduler._schedule -/

/-- The state FrontendScheduler._schedule threads through its walk
of the NCQ: the cache (and through it the FTL), the dirty_lbas set
accumulated so far, the NAND READ transactions submitted, and the
ids of requests issued to cache.get / cache.put on this walk. -/
structure FrontendState where
  wc : WriteCacheState
  dirty_lbas : List ℕ
  issuedTxns : List NANDTransaction
  cacheGets : List ℕ
  cachePuts : List ℕ
deriving DecidableEq, Repr

/-- One iteration of the NCQ walk in FrontendScheduler._schedule.
READ: skip unless READY and not behind a dirty lba; serve from the
cache when contains(lba) (skipping while the cache is busy),
otherwise resolve a physical address via ftl.lpa_to_ppa (the source
passes the lba here) and submit a NAND READ transaction.  WRITE:
add the lba to dirty_lbas unconditionally, then issue cache.put
unless the request is not READY, the cache is busy or cannot hold
the lba.  FLUSH raises NotImplementedError (none).  The IN_PROGRESS
status update mutates only the request just handled, which this
walk never revisits. -/
def feStep (s : FrontendState) (r : Request) : Option FrontendState :=
  match r.type with
  | RequestType.READ =>
    if r.status ≠ RequestStatus.READY ∨ r.lba ∈ s.dirty_lbas then some s
    else if s.wc.contains r.lba then
      if s.wc.busy then some s
      else
        match s.wc.get r with
        | some wc1 => some { s with wc := wc1, cacheGets := s.cacheGets ++ [r.id] }
        | none => none
    else
      let res := s.wc.ftl.lpa_to_ppa r.lba
      match res.1 with
      | none => none
      | some pa =>
        let txn : NANDTransaction :=
          { type := NANDTransactionType.READ, pa := pa, start_time := 0,
            payload := EvPayload.reqPayload r }
        some { s with wc := { s.wc with ftl := res.2 },
                      issuedTxns := s.issuedTxns ++ [txn] }
  | RequestType.WRITE =>
    let s1 := { s with dirty_lbas := setAdd r.lba s.dirty_lbas }
    if r.status ≠ RequestStatus.READY ∨ s1.wc.busy ∨ ¬ s1.wc.can_hold r.lba then some s1
    else
      match s1.wc.put r with
      | some wc1 => some { s1 with wc := wc1, cachePuts := s1.cachePuts ++ [r.id] }
      | none => none
  | RequestType.FLUSH => none

/-- A full scheduling tick: walk the NCQ head to tail. -/
def feSchedule (s : FrontendState) (ncq : List Request) : Option FrontendState :=
  ncq.foldlM feStep s

/-! ## Concrete scenario inputs -/

/-- The trace request W(lba=0, t=0). -/
def rW0 : Request :=
  { id := 0, type := RequestType.WRITE, lba := 0, fua := false, status := RequestStatus.READY }

/-- A second write to lba 0 (re-dirtying the same page). -/
def rW0b : Request :=
  { id := 1, type := RequestType.WRITE, lba := 0, fua := false, status := RequestStatus.READY }

/-- A FUA write to lba 0. -/
def rFua : Request :=
  { id := 2, type := RequestType.WRITE, lba := 0, fua := true, status := RequestStatus.READY }

/-- Scenario for claim C2: the single trace [W(lba=0, t=0)], carried
to the point where the coalesce delay elapses and the writeback is
issued: put at t=0, CACHE_WRITE_COMPLETE at t=10, CACHE_FLUSH_START
at t=510. -/
def c2trace : List WCOp :=
  [WCOp.opPut rW0 0, WCOp.opCWC 0, WCOp.opFlush 0]

/-- Scenario for claim C5: as c2trace, then the NAND write issued by
that flush completes at t=715 (dispatch at 510, dma_us = 5,
program_us = 200). -/
def c5trace : List WCOp :=
  [WCOp.opPut rW0 0, WCOp.opCWC 0, WCOp.opFlush 0, WCOp.opNandComplete 0 715]

/-- Scenario for claim C4: W(lba=0) flushes at t=510; while its NAND
write is still outstanding a second W(lba=0) arrives at t=520,
re-dirties the FLUSHING page, and its own writeback fires at
t=1030. -/
def c4trace : List WCOp :=
  [WCOp.opPut rW0 0, WCOp.opCWC 0, WCOp.opFlush 0,
   WCOp.opPut rW0b 520, WCOp.opCWC 0, WCOp.opFlush 0]

/-- Scenario for claim C3: a FUA write is put at t=0 and its
CACHE_WRITE_COMPLETE fires at t=10. -/
def c3trace : List WCOp :=
  [WCOp.opPut rFua 0, WCOp.opCWC 0]

/-- True when the state has emitted a REQUEST_COMPLETE event whose
payload is the given request. -/
def emitsReqComplete (s : WriteCacheState) (r : Request) : Bool :=
  s.emitted.any (fun p =>
    decide (p.1.ev_type = EvType.REQUEST_COMPLETE) && decide (p.2 = EvPayload.reqPayload r))

/-- A handler that schedules and cancels nothing. -/
def H0 : HandlerFn := fun _ _ => ([], [])

/-- A small loop state with two scheduled events. -/
def c1state : LoopState :=
  { heap := [{ time_us := 5, ev_type := EvType.REQUEST_ARRIVAL, seq := 0 },
             { time_us := 3, ev_type := EvType.REQUEST_COMPLETE, seq := 1 }],
    counter := 2, canceled := [], time_us := 0 }

/-- A small loop state in which the seq 0 event carries a tombstone. -/
def c9state : LoopState :=
  { heap := [{ time_us := 4, ev_type := EvType.CACHE_FLUSH_START, seq := 0 },
             { time_us := 6, ev_type := EvType.REQUEST_ARRIVAL, seq := 1 }],
    counter := 2, canceled := [0], time_us := 0 }

/-- The CACHE_FLUSH_START event scheduled at t = 510 in the
W(lba=0, t=0) scenario. -/
def evF510 : Ev :=
  { time_us := 510, ev_type := EvType.CACHE_FLUSH_START, seq := 3 }

/-- A cache page in FLUSH_SCHEDULED with evF510 recorded as the
latest flush event. -/
def pgFS : CachePage :=
  { lpa := 0, status := CachePageState.FLUSH_SCHEDULED, lbas := [0],
    latest_flush_event := some evF510 }

/-- The cache state at t = 10 of the W(lba=0, t=0) scenario, after
CACHE_WRITE_COMPLETE: the page at lpa 0 is FLUSH_SCHEDULED with its
flush event pending. -/
def wcFS : WriteCacheState :=
  { WCinit with cache := [(0, pgFS)], pendingFlush := [(evF510, 0)],
                seqCounter := 4, time_us := 10 }

/-- A frontend walk state in which lba 5 was marked dirty by an
earlier write in the same walk. -/
def feS0 : FrontendState :=
  { wc := WCinit, dirty_lbas := [5], issuedTxns := [], cacheGets := [], cachePuts := [] }

/-- A READY read of lba 5. -/
def rR5 : Request :=
  { id := 9, type := RequestType.READ, lba := 5, fua := false, status := RequestStatus.READY }

/-- A NAND write transaction for channel 0, die 0. -/
def txnW0 : NANDTransaction :=
  { type := NANDTransactionType.WRITE,
    pa := { channel := 0, die := 0, plane := 0, block := 0, page := 0 },
    start_time := 0, payload := EvPayload.noPayload }

/-- A NAND with one idle channel of two dies. -/
def nInit1 : NANDState :=
  { channels := [chInit 2], num_reads := 0, num_writes := 0 }

/-- A NAND whose die 0 is busy. -/
def nBusy : NANDState :=
  { channels := [{ chInit 2 with dies := [true, false] }], num_reads := 0, num_writes := 0 }

/-- A scheduler whose queue holds the single write txnW0. -/
def schedW : MockScheduler :=
  { queue := [txnW0] }

/-- A channel with one DMA in flight. -/
def cBusy1 : ChannelState :=
  { dma_queue := [], busy := true, dies := [false], inflightDMA := [txnW0],
    inflightReadOps := [], inflightPrograms := [], completedTxns := [] }

/-! ## Theorems -/

/-- dict lookup after assignment at the same key. -/
theorem dictGet_dictInsert {α : Type} (m : List (ℕ × α)) (k : ℕ) (v : α) :
    dictGet (dictInsert m k v) k = some v := by
  induction m with
  | nil => simp [dictInsert, dictGet]
  | cons hd tl ih =>
    obtain ⟨k1, v1⟩ := hd
    by_cases h : k1 = k
    · simp [dictInsert, dictGet, h]
    · simp [dictInsert, dictGet, h, ih]

/-- C2 (code_bug evaluation): on the trace [W(lba=0, t=0)] with
lbas_per_page = 2, the page being flushed holds a single lba
(1 < 2, the read-modify-write case of the claim), yet the writeback
handler issues zero NAND READ transactions and one NAND WRITE: the
read-modify-write branch of _handle_writeback_start is commented out
in the source, so num_reads can never become 1. -/
theorem writeback_start_issues_no_read_scenario :
    (WCrun WCinit c2trace).map (fun s =>
      ((s.issued.filter (fun t => decide (t.type = NANDTransactionType.READ))).length,
       (s.issued.filter (fun t => decide (t.type = NANDTransactionType.WRITE))).length,
       (dictGet s.cache 0).map (fun p => p.lbas.length),
       s.ftl.lbas_per_page)) = some (0, 1, some 1, 2) := by
  decide

/-- C5 (code_bug evaluation): in the trace [W(lba=0, t=0)] the only
writeback transaction, the one issued when latest_flush_event
(seq 3) dispatched, completes at t = 715, with the page still in
FLUSHING.  The claim requires eviction, but the page is retained:
_handle_writeback_complete compares the NAND_WRITE_COMPLETE event
itself against the stored CACHE_FLUSH_START event, and dataclass
equality on (time_us, seq) can never hold between those two distinct
scheduled events. -/
theorem writeback_complete_never_evicts_scenario :
    (WCrun WCinit c5trace).map (fun s =>
      (dictContains s.cache 0, (dictGet s.cache 0).map (fun p => p.status),
       s.completedTxn, activeWritebacks s 0)) =
      some (true, some CachePageState.FLUSHING, [0], 0) := by
  decide

/-- C4 (counterexample): a reachable cache state carries two
simultaneously active writeback transactions for lpa 0, refuting
the at-most-one-writeback-per-LPA consequence of the claim.  The
first W(lba=0) flushes at t = 510; a second W(lba=0) at t = 520
finds the page FLUSHING (not FLUSH_SCHEDULED), so nothing is
canceled, and its own writeback fires at t = 1030 while the first
NAND write is still outstanding. -/
theorem wc_two_active_writebacks_reachable :
    (WCrun WCinit c4trace).map (fun s => activeWritebacks s 0) = some 2 := by
  decide

/-- C3 (counterexample): for the FUA write rFua, the
CACHE_WRITE_COMPLETE handler emits REQUEST_COMPLETE for it — the
fua flag is never consulted in src/cache.py — refuting the claim
that no REQUEST_COMPLETE is emitted at CACHE_WRITE_COMPLETE for FUA
writes. -/
theorem fua_write_completes_at_cache_write_complete :
    (WCrun WCinit c3trace).map (fun s => (rFua.fua, emitsReqComplete s rFua)) =
      some (true, true) := by
  decide

/-- C10: lpa_to_ppa never returns None: on an unmapped lpa it first
performs the allocate side effect (mutating the mapping and the
allocation counter) and then finds the fresh address, and on a
mapped lpa it returns the current mapping with the state
untouched. -/
theorem lpa_to_ppa_always_some (ftl : FlashTranslationLayer) (lpa : ℕ) :
    ((ftl.lpa_to_ppa lpa).1.isSome = true) ∧
    (dictGet ftl.mapping lpa = none →
      ftl.lpa_to_ppa lpa =
        (some { channel := 0, die := 0, plane := 0, block := 0, page := ftl.counter },
         { ftl with counter := ftl.counter + 1,
                    mapping := dictInsert ftl.mapping lpa
                      { channel := 0, die := 0, plane := 0, block := 0, page := ftl.counter } })) ∧
    (∀ pa, dictGet ftl.mapping lpa = some pa → ftl.lpa_to_ppa lpa = (some pa, ftl)) := by
  cases h : dictGet ftl.mapping lpa with
  | none =>
    refine ⟨?_, ?_, ?_⟩
    · simp [FlashTranslationLayer.lpa_to_ppa, dictContains, h,
            FlashTranslationLayer.allocate, dictGet_dictInsert]
    · intro _
      simp [FlashTranslationLayer.lpa_to_ppa, dictContains, h,
            FlashTranslationLayer.allocate, dictGet_dictInsert]
    · intro pa hpa
      exact absurd hpa (by simp)
  | some pa =>
    refine ⟨?_, ?_, ?_⟩
    · simp [FlashTranslationLayer.lpa_to_ppa, dictContains, h]
    · intro hn
      exact absurd hn (by simp)
    · intro pa1 hpa1
      obtain rfl : pa = pa1 := by injection hpa1
      simp [FlashTranslationLayer.lpa_to_ppa, dictContains, h]

/-- C10 witness: on the empty FTL of the source constructor, looking
up lpa 0 allocates physical page 0 and bumps the counter. -/
theorem lpa_to_ppa_always_some_witness :
    FlashTranslationLayer.lpa_to_ppa { mapping := [], counter := 0, lbas_per_page := 2 } 0 =
      (some { channel := 0, die := 0, plane := 0, block := 0, page := 0 },
       { mapping := [(0, { channel := 0, die := 0, plane := 0, block := 0, page := 0 })],
         counter := 1, lbas_per_page := 2 }) :=
  (lpa_to_ppa_always_some { mapping := [], counter := 0, lbas_per_page := 2 } 0).2.1 rfl

/-- C3 (amended): the CACHE_WRITE_COMPLETE handler emits
REQUEST_COMPLETE for the request followed by FRONTEND_SCHEDULE for
every write, FUA or not (the fua flag is ignored by the source),
and the NAND write completion handler emits no event at all, so no
host completion is ever tied to the writeback. -/
theorem cache_write_complete_always_completes_host (s : WriteCacheState) (r : Request)
    (page : CachePage) (h : dictGet s.cache (s.ftl.lba_to_lpa r.lba) = some page) :
    ((s.handle_cache_write_complete r).map (fun x => x.emitted) =
      some (s.emitted ++
        [({ time_us := s.time_us, ev_type := EvType.REQUEST_COMPLETE, seq := s.seqCounter },
          EvPayload.reqPayload r),
         ({ time_us := s.time_us, ev_type := EvType.FRONTEND_SCHEDULE, seq := s.seqCounter + 1 },
          EvPayload.noPayload)])) ∧
    (∀ evN lpa, (s.handle_writeback_complete evN lpa).emitted = s.emitted) := by
  constructor
  · simp [WriteCacheState.handle_cache_write_complete, h]
  · intro evN lpa
    unfold WriteCacheState.handle_writeback_complete
    cases hg : dictGet s.cache lpa with
    | none => rfl
    | some p =>
      by_cases hc : p.status = CachePageState.FLUSHING ∧ pyEventEq evN p.latest_flush_event
      · simp [hc]
      · simp [hc]

/-- C3 witness: concrete instance at the FLUSH_SCHEDULED page state
wcFS with the FUA request rFua. -/
theorem cache_write_complete_always_completes_host_witness :
    ((wcFS.handle_cache_write_complete rFua).map (fun x => x.emitted) =
      some (wcFS.emitted ++
        [({ time_us := wcFS.time_us, ev_type := EvType.REQUEST_COMPLETE, seq := wcFS.seqCounter },
          EvPayload.reqPayload rFua),
         ({ time_us := wcFS.time_us, ev_type := EvType.FRONTEND_SCHEDULE, seq := wcFS.seqCounter + 1 },
          EvPayload.noPayload)])) :=
  (cache_write_complete_always_completes_host wcFS rFua pgFS (by decide)).1

/-- C4 (amended): put on a FLUSH_SCHEDULED page tombstones the
latest_flush_event and re-dirties the page, and a tombstoned
CACHE_FLUSH_START can never fire, so the superseded writeback is
dead; the at-most-one-active-writeback-per-LPA consequence of the
original claim does not hold (see the counterexample): a page
re-dirtied while FLUSHING schedules a fresh writeback without
waiting for the outstanding one. -/
theorem put_cancels_scheduled_flush :
    (∀ (s : WriteCacheState) (r : Request) (page : CachePage) (f : Ev),
      s.busy = false → s.can_hold r.lba = true →
      dictGet s.cache (s.ftl.lba_to_lpa r.lba) = some page →
      page.status = CachePageState.FLUSH_SCHEDULED →
      page.latest_flush_event = some f →
      s.put r = some { s with
        busy := true,
        cache := dictInsert s.cache (s.ftl.lba_to_lpa r.lba)
          { page with status := CachePageState.DIRTY },
        canceled := f.seq :: s.canceled,
        seqCounter := s.seqCounter + 1,
        pendingCWC := s.pendingCWC ++
          [({ time_us := s.time_us + s.write_us, ev_type := EvType.CACHE_WRITE_COMPLETE,
              seq := s.seqCounter }, r)] }) ∧
    (∀ (s : WriteCacheState) (i : ℕ) (ev : Ev) (lpa : ℕ),
      s.pendingFlush.get? i = some (ev, lpa) → ev.seq ∈ s.canceled →
      WCstep s (WCOp.opFlush i) = none) := by
  constructor
  · intro s r page f hb hh hp hst hf
    simp [WriteCacheState.put, hb, hh, hp, hst, hf]
  · intro s i ev lpa hp hc
    simp only [List.get?_eq_getElem?] at hp
    simp [WCstep, hp, hc]

/-- C4 witness: concrete instance at wcFS, whose page at lpa 0 is
FLUSH_SCHEDULED with pending flush event evF510. -/
theorem put_cancels_scheduled_flush_witness :
    WriteCacheState.put wcFS rW0b = some { wcFS with
      busy := true,
      cache := dictInsert wcFS.cache (wcFS.ftl.lba_to_lpa rW0b.lba)
        { pgFS with status := CachePageState.DIRTY },
      canceled := evF510.seq :: wcFS.canceled,
      seqCounter := wcFS.seqCounter + 1,
      pendingCWC := wcFS.pendingCWC ++
        [({ time_us := wcFS.time_us + wcFS.write_us, ev_type := EvType.CACHE_WRITE_COMPLETE,
            seq := wcFS.seqCounter }, rW0b)] } :=
  put_cancels_scheduled_flush.1 wcFS rW0b pgFS evF510 rfl (by decide) (by decide) rfl rfl

/-- Membership in the Python set.add model. -/
theorem setAdd_mem (x a : ℕ) (l : List ℕ) : x ∈ setAdd a l ↔ x = a ∨ x ∈ l := by
  unfold setAdd
  by_cases h : a ∈ l
  · simp only [if_pos h]
    constructor
    · exact Or.inr
    · rintro (rfl | hx)
      · exact h
      · exact hx
  · simp [if_neg h, List.mem_cons]

/-- The dirty_lbas set after one NCQ walk step: writes add their
lba, everything else leaves it alone. -/
theorem feStep_dirty (s : FrontendState) (r : Request) (s1 : FrontendState)
    (h : feStep s r = some s1) :
    s1.dirty_lbas =
      if r.type = RequestType.WRITE then setAdd r.lba s.dirty_lbas else s.dirty_lbas := by
  cases hr : r.type with
  | READ =>
    rw [if_neg (by simp)]
    simp only [feStep, hr] at h
    repeat' split at h
    all_goals first
      | rw [← Option.some.inj h]
      | exact absurd h (by simp)
  | WRITE =>
    rw [if_pos rfl]
    simp only [feStep, hr] at h
    repeat' split at h
    all_goals first
      | rw [← Option.some.inj h]
      | exact absurd h (by simp)
  | FLUSH =>
    simp only [feStep, hr] at h
    exact absurd h (by simp)

/-- C6: on a frontend scheduling tick, a READY read behind an
earlier-in-queue write to the same lba (lba already in dirty_lbas)
is skipped with the walk state untouched; a read that hits the
cache (contains true) never adds a NAND transaction; a write adds
its lba to dirty_lbas whether or not it is issued to the cache; and
across the whole walk dirty_lbas accumulates exactly the lbas of
the writes in the queue. -/
theorem frontend_schedule_hazard_handling :
    (∀ (s : FrontendState) (r : Request), r.type = RequestType.READ →
      r.lba ∈ s.dirty_lbas → feStep s r = some s) ∧
    (∀ (s : FrontendState) (r : Request) (s1 : FrontendState), r.type = RequestType.READ →
      s.wc.contains r.lba = true → feStep s r = some s1 → s1.issuedTxns = s.issuedTxns) ∧
    (∀ (s : FrontendState) (r : Request) (s1 : FrontendState), r.type = RequestType.WRITE →
      feStep s r = some s1 → s1.dirty_lbas = setAdd r.lba s.dirty_lbas) ∧
    (∀ (s : FrontendState) (ncq : List Request) (s1 : FrontendState),
      feSchedule s ncq = some s1 →
      ∀ x, x ∈ s1.dirty_lbas ↔
        x ∈ s.dirty_lbas ∨ ∃ w ∈ ncq, w.type = RequestType.WRITE ∧ w.lba = x) := by
  refine ⟨?_, ?_, ?_, ?_⟩
  · intro s r hr hm
    simp [feStep, hr, hm]
  · intro s r s1 hr hcont h
    by_cases h1 : r.status ≠ RequestStatus.READY ∨ r.lba ∈ s.dirty_lbas
    · simp [feStep, hr, h1] at h
      simp [← h]
    · by_cases h3 : s.wc.busy
      · simp [feStep, hr, h1, hcont, h3] at h
        simp [← h]
      · cases hg : s.wc.get r with
        | none => simp [feStep, hr, h1, hcont, h3, hg] at h
        | some wc1 =>
          simp [feStep, hr, h1, hcont, h3, hg] at h
          simp [← h]
  · intro s r s1 hw h
    rw [feStep_dirty s r s1 h]
    simp [hw]
  · intro s ncq
    induction ncq generalizing s with
    | nil =>
      intro s1 h x
      simp [feSchedule] at h
      simp [← h]
    | cons r rs ih =>
      intro s1 h x
      rw [feSchedule, List.foldlM_cons] at h
      cases hstep : feStep s r with
      | none => rw [hstep] at h; simp at h
      | some s2 =>
        rw [hstep] at h
        simp only [Option.bind_eq_bind, Option.some_bind] at h
        have hrec := ih s2 s1 h x
        have hd := feStep_dirty s r s2 hstep
        by_cases hw : r.type = RequestType.WRITE
        · rw [hd, if_pos hw] at hrec
          rw [hrec, setAdd_mem]
          constructor
          · rintro ((rfl | hx) | ⟨w, hwmem, hwt, hwlba⟩)
            · exact Or.inr ⟨r, List.mem_cons_self r rs, hw, rfl⟩
            · exact Or.inl hx
            · exact Or.inr ⟨w, List.mem_cons_of_mem r hwmem, hwt, hwlba⟩
          · rintro (hx | ⟨w, hwmem, hwt, hwlba⟩)
            · exact Or.inl (Or.inr hx)
            · rcases List.mem_cons.mp hwmem with rfl | hwmem1
              · exact Or.inl (Or.inl hwlba.symm)
              · exact Or.inr ⟨w, hwmem1, hwt, hwlba⟩
        · rw [hd, if_neg hw] at hrec
          rw [hrec]
          constructor
          · rintro (hx | ⟨w, hwmem, hwt, hwlba⟩)
            · exact Or.inl hx
            · exact Or.inr ⟨w, List.mem_cons_of_mem r hwmem, hwt, hwlba⟩
          · rintro (hx | ⟨w, hwmem, hwt, hwlba⟩)
            · exact Or.inl hx
            · rcases List.mem_cons.mp hwmem with rfl | hwmem1
              · exact absurd hwt hw
              · exact Or.inr ⟨w, hwmem1, hwt, hwlba⟩

/-- C6 witness: the READY read of lba 5 is skipped, state unchanged,
when lba 5 sits in dirty_lbas. -/
theorem frontend_schedule_hazard_handling_witness :
    feStep feS0 rR5 = some feS0 :=
  frontend_schedule_hazard_handling.1 feS0 rR5 rfl (by decide)

/-- Lookup after List.set at the written index. -/
theorem getq_set_self {α : Type} :
    ∀ (l : List α) (i : ℕ) (a : α), i < l.length → (l.set i a).get? i = some a
  | [], i, _, h => absurd h (by simp)
  | _ :: _, 0, _, _ => rfl
  | _ :: tl, Nat.succ i, a, h => getq_set_self tl i a (by simpa using h)

/-- A successful lookup index is below the length. -/
theorem getq_lt {α : Type} :
    ∀ (l : List α) (i : ℕ) (a : α), l.get? i = some a → i < l.length
  | [], i, _, h => by simp [List.get?] at h
  | _ :: _, 0, _, _ => by simp
  | _ :: tl, Nat.succ i, a, h => by
    have h1 := getq_lt tl i a h
    simpa using Nat.succ_lt_succ h1

/-- Channel.is_ready spelled as a lookup equation. -/
theorem is_ready_iff (c : ChannelState) (pa : PhysicalAddress) :
    c.is_ready pa = true ↔ c.dies.get? pa.die = some false := by
  unfold ChannelState.is_ready
  cases h : c.dies.get? pa.die with
  | none => simp
  | some b => cases b <;> simp

/-- do_dma does not touch the die flags. -/
theorem do_dma_dies (c : ChannelState) (txn : NANDTransaction) :
    (c.do_dma txn).dies = c.dies := by
  unfold ChannelState.do_dma
  split <;> rfl

/-- Channel.write_page on a ready die succeeds and leaves the die
busy. -/
theorem channel_write_page_spec (c : ChannelState) (txn : NANDTransaction)
    (h : c.is_ready txn.pa = true) :
    ∃ c1, c.write_page txn = some c1 ∧ c1.is_ready txn.pa = false := by
  have hd : c.dies.get? txn.pa.die = some false := (is_ready_iff c txn.pa).mp h
  have hlt : txn.pa.die < c.dies.length := getq_lt _ _ _ hd
  refine ⟨(({ c with dies := c.dies.set txn.pa.die true }) : ChannelState).do_dma txn, ?_, ?_⟩
  · unfold ChannelState.write_page
    rw [if_pos h]
  · unfold ChannelState.is_ready
    rw [do_dma_dies]
    rw [getq_set_self _ _ _ (by simpa using hlt)]
    rfl

/-- Channel.read_page on a ready die succeeds and leaves the die
busy. -/
theorem channel_read_page_spec (c : ChannelState) (txn : NANDTransaction)
    (h : c.is_ready txn.pa = true) :
    ∃ c1, c.read_page txn = some c1 ∧ c1.is_ready txn.pa = false := by
  have hd : c.dies.get? txn.pa.die = some false := (is_ready_iff c txn.pa).mp h
  have hlt : txn.pa.die < c.dies.length := getq_lt _ _ _ hd
  refine ⟨({ c with
      dies := c.dies.set txn.pa.die true,
      inflightReadOps := c.inflightReadOps ++ [txn] } : ChannelState), ?_, ?_⟩
  · unfold ChannelState.read_page
    rw [if_pos h]
  · unfold ChannelState.is_ready
    rw [getq_set_self _ _ _ (by simpa using hlt)]
    rfl

/-- NAND.write_page on a ready die succeeds, counts the write and
leaves the die busy. -/
theorem nand_write_page_spec (n : NANDState) (txn : NANDTransaction)
    (h : n.is_ready txn.pa = true) :
    ∃ n1, n.write_page txn = some n1 ∧ n1.num_writes = n.num_writes + 1 ∧
      n1.num_reads = n.num_reads ∧ n1.is_ready txn.pa = false := by
  unfold NANDState.is_ready at h
  cases hc : n.channels.get? txn.pa.channel with
  | none => rw [hc] at h; simp at h
  | some c =>
    rw [hc] at h
    obtain ⟨c1, hwp, hnr⟩ := channel_write_page_spec c txn h
    have hlt : txn.pa.channel < n.channels.length := getq_lt _ _ _ hc
    refine ⟨({ n with
        channels := n.channels.set txn.pa.channel c1,
        num_writes := n.num_writes + 1 } : NANDState), ?_, rfl, rfl, ?_⟩
    · rw [List.get?_eq_getElem?] at hc
      simp [NANDState.write_page, hc, hwp]
    · unfold NANDState.is_ready
      rw [getq_set_self _ _ _ hlt]
      exact hnr

/-- NAND.read_page on a ready die succeeds, counts the read and
leaves the die busy. -/
theorem nand_read_page_spec (n : NANDState) (txn : NANDTransaction)
    (h : n.is_ready txn.pa = true) :
    ∃ n1, n.read_page txn = some n1 ∧ n1.num_reads = n.num_reads + 1 ∧
      n1.num_writes = n.num_writes ∧ n1.is_ready txn.pa = false := by
  unfold NANDState.is_ready at h
  cases hc : n.channels.get? txn.pa.channel with
  | none => rw [hc] at h; simp at h
  | some c =>
    rw [hc] at h
    obtain ⟨c1, hrp, hnr⟩ := channel_read_page_spec c txn h
    have hlt : txn.pa.channel < n.channels.length := getq_lt _ _ _ hc
    refine ⟨({ n with
        channels := n.channels.set txn.pa.channel c1,
        num_reads := n.num_reads + 1 } : NANDState), ?_, rfl, rfl, ?_⟩
    · rw [List.get?_eq_getElem?] at hc
      simp [NANDState.read_page, hc, hrp]
    · unfold NANDState.is_ready
      rw [getq_set_self _ _ _ hlt]
      exact hnr

/-- C7: try_dispatch inspects only the head of the submission queue.
With an empty queue, or when the target die of the head is not
ready, it returns with the scheduler and the NAND completely
unchanged (the head stays in place for the next tick).  When the
die is ready it dispatches exactly the head: the queue becomes its
tail, start_time is stamped with the current time, the matching NAND
counter increments and the target die becomes busy.  The source
NANDTransaction has no depends_on field, so the dependency clause of
the claim is vacuously satisfied. -/
theorem try_dispatch_head_only (s : MockScheduler) (n : NANDState) (now : ℤ) :
    (s.queue = [] → try_dispatch s n now = some (s, n, none)) ∧
    (∀ t rest, s.queue = t :: rest → n.is_ready t.pa = false →
      try_dispatch s n now = some (s, n, none)) ∧
    (∀ t rest, s.queue = t :: rest → n.is_ready t.pa = true →
      t.type = NANDTransactionType.WRITE →
      ∃ n1, n.write_page { t with start_time := now } = some n1 ∧
        try_dispatch s n now = some ({ queue := rest }, n1, some { t with start_time := now }) ∧
        n1.num_writes = n.num_writes + 1 ∧ n1.num_reads = n.num_reads ∧
        n1.is_ready t.pa = false) ∧
    (∀ t rest, s.queue = t :: rest → n.is_ready t.pa = true →
      t.type = NANDTransactionType.READ →
      ∃ n1, n.read_page { t with start_time := now } = some n1 ∧
        try_dispatch s n now = some ({ queue := rest }, n1, some { t with start_time := now }) ∧
        n1.num_reads = n.num_reads + 1 ∧ n1.num_writes = n.num_writes ∧
        n1.is_ready t.pa = false) := by
  refine ⟨?_, ?_, ?_, ?_⟩
  · intro hq
    simp [try_dispatch, hq]
  · intro t rest hq hnr
    simp [try_dispatch, hq, hnr]
  · intro t rest hq hready htype
    obtain ⟨ttype, tpa, tst, tpl⟩ := t
    change ttype = NANDTransactionType.WRITE at htype
    subst htype
    have hready1 : n.is_ready tpa = true := hready
    obtain ⟨n1, hwp, hw, hr, hb⟩ := nand_write_page_spec n
      { type := NANDTransactionType.WRITE, pa := tpa, start_time := now, payload := tpl } hready1
    refine ⟨n1, hwp, ?_, hw, hr, hb⟩
    simp [try_dispatch, hq, hready, hwp]
  · intro t rest hq hready htype
    obtain ⟨ttype, tpa, tst, tpl⟩ := t
    change ttype = NANDTransactionType.READ at htype
    subst htype
    have hready1 : n.is_ready tpa = true := hready
    obtain ⟨n1, hrp, hr, hw, hb⟩ := nand_read_page_spec n
      { type := NANDTransactionType.READ, pa := tpa, start_time := now, payload := tpl } hready1
    refine ⟨n1, hrp, ?_, hr, hw, hb⟩
    simp [try_dispatch, hq, hready, hrp]

/-- C7 witness: with die 0 busy, the queued write stays at the head
and nothing changes. -/
theorem try_dispatch_head_only_witness :
    try_dispatch schedW nBusy 510 = some (schedW, nBusy, none) :=
  (try_dispatch_head_only schedW nBusy 510).2.1 txnW0 [] rfl (by decide)

/-- do_dma preserves the per-channel DMA discipline. -/
theorem do_dma_ChInv {c : ChannelState} (h : ChInv c) (txn : NANDTransaction) :
    ChInv (c.do_dma txn) := by
  obtain ⟨h1, h2, h3⟩ := h
  unfold ChannelState.do_dma
  by_cases hb : c.busy = true
  · rw [if_pos hb]
    exact ⟨h1, by simpa using h2, fun _ => hb⟩
  · rw [if_neg hb]
    have hin : c.inflightDMA = [] := by
      by_contra hne
      exact hb (h2.mpr hne)
    refine ⟨?_, ?_, ?_⟩
    · simp [hin]
    · simp [hin]
    · intro _
      rfl

/-- ChInv lifts through Option.getD. -/
theorem getD_ChInv {c : ChannelState} {x : Option ChannelState} (h : ChInv c)
    (hx : ∀ c2, x = some c2 → ChInv c2) : ChInv (x.getD c) := by
  cases x with
  | none => exact h
  | some c2 => exact hx c2 rfl

/-- handle_dma_complete preserves the per-channel DMA discipline. -/
theorem handle_dma_complete_ChInv {c : ChannelState} (h : ChInv c) :
    ∀ c2, c.handle_dma_complete = some c2 → ChInv c2 := by
  obtain ⟨h1, h2, h3⟩ := h
  intro c2 hc2
  unfold ChannelState.handle_dma_complete at hc2
  cases hin : c.inflightDMA with
  | nil => rw [hin] at hc2; exact absurd hc2 (by simp)
  | cons txn restIn =>
    rw [hin] at hc2
    dsimp only at hc2
    have hrest : restIn = [] := by
      rw [hin] at h1
      simpa using h1
    subst hrest
    have hbusy : c.busy = true := h2.mpr (by simp [hin])
    cases hq : c.dma_queue with
    | nil =>
      rw [hq] at hc2
      dsimp only at hc2
      cases htype : txn.type <;> rw [htype] at hc2 <;>
        simp only [Option.some.injEq] at hc2 <;> rw [← hc2] <;>
        simp [ChInv, ChannelState.read_transfer_done, ChannelState.write_transfer_done]
    | cons nextReq rest =>
      rw [hq] at hc2
      dsimp only at hc2
      cases htype : txn.type <;> rw [htype] at hc2 <;>
        simp only [Option.some.injEq] at hc2 <;> rw [← hc2] <;>
        simp [ChInv, ChannelState.read_transfer_done, ChannelState.write_transfer_done, hbusy]

/-- Every channel step preserves the per-channel DMA discipline. -/
theorem chStep_ChInv {c : ChannelState} (h : ChInv c) (op : ChOp) :
    ChInv (chStep c op) := by
  obtain ⟨h1, h2, h3⟩ := h
  cases op with
  | opDoDma txn =>
    show ChInv (c.do_dma txn)
    exact do_dma_ChInv ⟨h1, h2, h3⟩ txn
  | opDmaComplete =>
    show ChInv ((c.handle_dma_complete).getD c)
    exact getD_ChInv ⟨h1, h2, h3⟩ (handle_dma_complete_ChInv ⟨h1, h2, h3⟩)
  | opReadPage txn =>
    show ChInv ((c.read_page txn).getD c)
    refine getD_ChInv ⟨h1, h2, h3⟩ ?_
    intro c2 hr
    unfold ChannelState.read_page at hr
    by_cases hready : c.is_ready txn.pa = true
    · rw [if_pos hready] at hr
      simp only [Option.some.injEq] at hr
      rw [← hr]
      exact ⟨h1, h2, h3⟩
    · rw [if_neg hready] at hr
      exact absurd hr (by simp)
  | opReadOpComplete =>
    show ChInv ((c.handle_read_op_complete).getD c)
    refine getD_ChInv ⟨h1, h2, h3⟩ ?_
    intro c2 hro
    unfold ChannelState.handle_read_op_complete at hro
    split at hro
    · exact absurd hro (by simp)
    · rename_i txn1 restR1 heq1
      simp only [Option.some.injEq] at hro
      rw [← hro]
      exact @do_dma_ChInv { c with inflightReadOps := restR1 } ⟨h1, h2, h3⟩ txn1
  | opWritePage txn =>
    show ChInv ((c.write_page txn).getD c)
    refine getD_ChInv ⟨h1, h2, h3⟩ ?_
    intro c2 hw
    unfold ChannelState.write_page at hw
    by_cases hready : c.is_ready txn.pa = true
    · rw [if_pos hready] at hw
      simp only [Option.some.injEq] at hw
      rw [← hw]
      exact @do_dma_ChInv { c with dies := c.dies.set txn.pa.die true } ⟨h1, h2, h3⟩ txn
    · rw [if_neg hready] at hw
      exact absurd hw (by simp)
  | opProgramComplete =>
    show ChInv ((c.handle_program_complete).getD c)
    refine getD_ChInv ⟨h1, h2, h3⟩ ?_
    intro c2 hp
    unfold ChannelState.handle_program_complete at hp
    split at hp
    · exact absurd hp (by simp)
    · simp only [Option.some.injEq] at hp
      rw [← hp]
      exact ⟨h1, h2, h3⟩

/-- The discipline holds in every state reachable from a given one. -/
theorem chRun_ChInv {c : ChannelState} (h : ChInv c) (ops : List ChOp) :
    ChInv (chRun c ops) := by
  induction ops generalizing c with
  | nil => exact h
  | cons op rest ih => exact ih (chStep_ChInv h op)

/-- C8: per-channel DMA discipline.  In every state reachable from a
fresh channel at most one DMA is in flight (and the busy flag tracks
exactly that); do_dma on a busy channel appends the transaction to
the FIFO dma_queue without starting it; a completing DMA starts
exactly the next queued transfer in arrival order, keeping the
channel busy; and a completing DMA with an empty queue clears the
busy flag. -/
theorem channel_dma_fifo_discipline :
    (∀ (numDies : ℕ) (ops : List ChOp), ChInv (chRun (chInit numDies) ops)) ∧
    (∀ (c : ChannelState) (txn : NANDTransaction), c.busy = true →
      c.do_dma txn = { c with dma_queue := c.dma_queue ++ [txn] }) ∧
    (∀ (c : ChannelState) (txn nextReq : NANDTransaction)
       (restIn q : List NANDTransaction),
      c.inflightDMA = txn :: restIn → c.dma_queue = nextReq :: q →
      (c.handle_dma_complete).map (fun x => (x.inflightDMA, x.dma_queue, x.busy)) =
        some (restIn ++ [nextReq], q, c.busy)) ∧
    (∀ (c : ChannelState) (txn : NANDTransaction),
      c.inflightDMA = [txn] → c.dma_queue = [] →
      (c.handle_dma_complete).map (fun x => (x.inflightDMA, x.busy)) = some ([], false)) := by
  refine ⟨?_, ?_, ?_, ?_⟩
  · intro numDies ops
    refine chRun_ChInv ?_ ops
    exact ⟨by simp [chInit], by simp [chInit], by simp [chInit]⟩
  · intro c txn hb
    unfold ChannelState.do_dma
    rw [if_pos hb]
  · intro c txn nextReq restIn q hin hq
    unfold ChannelState.handle_dma_complete
    rw [hin, hq]
    dsimp only
    cases htype : txn.type <;>
      simp [ChannelState.read_transfer_done, ChannelState.write_transfer_done]
  · intro c txn hin hq
    unfold ChannelState.handle_dma_complete
    rw [hin, hq]
    dsimp only
    cases htype : txn.type <;>
      simp [ChannelState.read_transfer_done, ChannelState.write_transfer_done]

/-- C8 witness: a transaction requested while the channel is busy is
appended to the FIFO queue. -/
theorem channel_dma_fifo_discipline_witness :
    cBusy1.do_dma txnW0 = { cBusy1 with dma_queue := cBusy1.dma_queue ++ [txnW0] } :=
  channel_dma_fifo_discipline.2.1 cBusy1 txnW0 rfl

/-- Transitivity of the strict heap order. -/
theorem evLexLt_trans {a b c : Ev} (h1 : evLexLt a b) (h2 : evLexLt b c) : evLexLt a c := by
  rcases h1 with h1 | ⟨h1e, h1s⟩ <;> rcases h2 with h2 | ⟨h2e, h2s⟩
  · exact Or.inl (h1.trans h2)
  · exact Or.inl (lt_of_lt_of_eq h1 h2e)
  · exact Or.inl (lt_of_eq_of_lt h1e h2)
  · exact Or.inr ⟨h1e.trans h2e, h1s.trans h2s⟩

/-- Transitivity of the non-strict heap order. -/
theorem evLexLe_trans {a b c : Ev} (h1 : evLexLe a b) (h2 : evLexLe b c) : evLexLe a c := by
  rcases h1 with h1 | ⟨h1e, h1s⟩ <;> rcases h2 with h2 | ⟨h2e, h2s⟩
  · exact Or.inl (h1.trans h2)
  · exact Or.inl (lt_of_lt_of_eq h1 h2e)
  · exact Or.inl (lt_of_eq_of_lt h1e h2)
  · exact Or.inr ⟨h1e.trans h2e, h1s.trans h2s⟩

/-- Totality of the non-strict heap order. -/
theorem evLexLe_total (a b : Ev) : evLexLe a b ∨ evLexLe b a := by
  rcases lt_trichotomy a.time_us b.time_us with h | h | h
  · exact Or.inl (Or.inl h)
  · rcases Nat.le_total a.seq b.seq with hs | hs
    · exact Or.inl (Or.inr ⟨h, hs⟩)
    · exact Or.inr (Or.inr ⟨h.symm, hs⟩)
  · exact Or.inr (Or.inl h)

/-- Non-strict order plus distinct sequence numbers is strict. -/
theorem evLexLt_of_le_ne {a b : Ev} (h : evLexLe a b) (hne : a.seq ≠ b.seq) : evLexLt a b := by
  rcases h with h | ⟨he, hs⟩
  · exact Or.inl h
  · exact Or.inr ⟨he, lt_of_le_of_ne hs hne⟩

/-- The heap order bounds the time component. -/
theorem evLexLe_time {a b : Ev} (h : evLexLe a b) : a.time_us ≤ b.time_us := by
  rcases h with h | ⟨he, _⟩
  · exact le_of_lt h
  · exact le_of_eq he

/-- popMin returns none only on the empty heap. -/
theorem popMin_eq_none : ∀ (l : List Ev), popMin l = none → l = []
  | [], _ => rfl
  | e :: es, h => by
    rw [popMin] at h
    cases hes : popMin es with
    | none => rw [hes] at h; exact absurd h (by simp)
    | some pr =>
      obtain ⟨m, rest⟩ := pr
      rw [hes] at h
      dsimp only at h
      split at h <;> exact absurd h (by simp)

/-- popMin extracts one element: the input is a permutation of the
element consed on the remainder. -/
theorem popMin_perm : ∀ (l : List Ev) (m : Ev) (rest : List Ev),
    popMin l = some (m, rest) → l.Perm (m :: rest)
  | [], m, rest, h => by simp [popMin] at h
  | e :: es, m, rest, h => by
    rw [popMin] at h
    cases hes : popMin es with
    | none =>
      rw [hes] at h
      simp only [Option.some.injEq, Prod.mk.injEq] at h
      obtain ⟨rfl, rfl⟩ := h
      rw [popMin_eq_none es hes]
    | some pr =>
      obtain ⟨m1, r1⟩ := pr
      rw [hes] at h
      dsimp only at h
      have hperm := popMin_perm es m1 r1 hes
      split at h <;> simp only [Option.some.injEq, Prod.mk.injEq] at h
      · obtain ⟨rfl, rfl⟩ := h
        exact List.Perm.refl _
      · obtain ⟨rfl, rfl⟩ := h
        exact (hperm.cons e).trans (List.Perm.swap _ _ _)

/-- popMin extracts a minimum of the heap order. -/
theorem popMin_le : ∀ (l : List Ev) (m : Ev) (rest : List Ev),
    popMin l = some (m, rest) → ∀ x ∈ rest, evLexLe m x
  | [], m, rest, h => by simp [popMin] at h
  | e :: es, m, rest, h => by
    rw [popMin] at h
    cases hes : popMin es with
    | none =>
      rw [hes] at h
      simp only [Option.some.injEq, Prod.mk.injEq] at h
      obtain ⟨rfl, rfl⟩ := h
      intro x hx
      exact absurd hx (List.not_mem_nil x)
    | some pr =>
      obtain ⟨m1, r1⟩ := pr
      rw [hes] at h
      dsimp only at h
      have hle := popMin_le es m1 r1 hes
      have hperm := popMin_perm es m1 r1 hes
      split at h <;> simp only [Option.some.injEq, Prod.mk.injEq] at h
      · rename_i hcond
        obtain ⟨rfl, rfl⟩ := h
        intro x hx
        have hx1 : x ∈ m1 :: r1 := hperm.subset hx
        rcases List.mem_cons.mp hx1 with rfl | hx2
        · exact hcond
        · exact evLexLe_trans hcond (hle x hx2)
      · rename_i hcond
        obtain ⟨rfl, rfl⟩ := h
        intro x hx
        rcases List.mem_cons.mp hx with rfl | hx2
        · rcases evLexLe_total x m1 with hh | hh
          · exact absurd hh hcond
          · exact hh
        · exact hle x hx2

/-- Unfolding scheduleAll one event at a time. -/
theorem scheduleAll_cons (s : LoopState) (p : PreEv) (ps : List PreEv) :
    scheduleAll s (p :: ps) = scheduleAll (schedule_event s p) ps := rfl

/-- scheduleAll does not touch the tombstone set. -/
theorem scheduleAll_canceled (ps : List PreEv) :
    ∀ s : LoopState, (scheduleAll s ps).canceled = s.canceled := by
  induction ps with
  | nil => intro s; rfl
  | cons p ps ih =>
    intro s
    rw [scheduleAll_cons, ih]
    rfl

/-- Membership in the heap after scheduling a batch: either an old
event, or a fresh one with a new sequence number and the time of one
of the scheduled PreEvs. -/
theorem scheduleAll_mem (ps : List PreEv) :
    ∀ (s : LoopState) (x : Ev), x ∈ (scheduleAll s ps).heap →
      x ∈ s.heap ∨ (s.counter ≤ x.seq ∧ ∃ p ∈ ps, x.time_us = p.time_us) := by
  induction ps with
  | nil => intro s x hx; exact Or.inl hx
  | cons p ps ih =>
    intro s x hx
    rw [scheduleAll_cons] at hx
    rcases ih _ x hx with hx1 | ⟨hc, p1, hp1, ht⟩
    · rcases List.mem_cons.mp hx1 with rfl | hx2
      · exact Or.inr ⟨le_refl _, p, List.mem_cons_self p ps, rfl⟩
      · exact Or.inl hx2
    · exact Or.inr ⟨le_trans (Nat.le_succ _) hc, p1, List.mem_cons_of_mem p hp1, ht⟩

/-- schedule_event preserves heap well-formedness. -/
theorem schedule_event_WF {s : LoopState} (h : WFheap s) (p : PreEv) :
    WFheap (schedule_event s p) := by
  obtain ⟨hb, hp⟩ := h
  constructor
  · intro e he
    rcases List.mem_cons.mp he with rfl | he2
    · exact Nat.lt_succ_self _
    · exact Nat.lt_succ_of_lt (hb e he2)
  · refine List.Pairwise.cons ?_ hp
    intro b hb2
    exact ne_of_gt (hb b hb2)

/-- scheduleAll preserves heap well-formedness. -/
theorem scheduleAll_WF (ps : List PreEv) :
    ∀ s : LoopState, WFheap s → WFheap (scheduleAll s ps) := by
  induction ps with
  | nil => intro s h; exact h
  | cons p ps ih =>
    intro s h
    rw [scheduleAll_cons]
    exact ih _ (schedule_event_WF h p)

/-- Unfolding runLoop on the empty heap. -/
theorem runLoop_succ_none (H : HandlerFn) (fuel : ℕ) (untilUs : Option ℤ) (s : LoopState)
    (h : popMin s.heap = none) :
    runLoop H (fuel + 1) untilUs s = ([], s, true) := by
  simp [runLoop, h]

/-- Unfolding runLoop when the least event is past until_us: the
event is pushed back and the loop stops. -/
theorem runLoop_succ_past (H : HandlerFn) (fuel : ℕ) (untilUs : Option ℤ) (s : LoopState)
    (e : Ev) (rest : List Ev) (h : popMin s.heap = some (e, rest))
    (hp : pastUntil untilUs e.time_us = true) :
    runLoop H (fuel + 1) untilUs s = ([], { s with heap := e :: rest }, true) := by
  simp [runLoop, h, hp]

/-- Unfolding runLoop when the least event carries a tombstone: it
is dropped without dispatching. -/
theorem runLoop_succ_canceled (H : HandlerFn) (fuel : ℕ) (untilUs : Option ℤ) (s : LoopState)
    (e : Ev) (rest : List Ev) (h : popMin s.heap = some (e, rest))
    (hp : pastUntil untilUs e.time_us = false) (hc : e.seq ∈ s.canceled) :
    runLoop H (fuel + 1) untilUs s = runLoop H fuel untilUs { s with heap := rest } := by
  simp [runLoop, h, hp, hc]

/-- Unfolding runLoop on a dispatch. -/
theorem runLoop_succ_dispatch (H : HandlerFn) (fuel : ℕ) (untilUs : Option ℤ) (s : LoopState)
    (e : Ev) (rest : List Ev) (h : popMin s.heap = some (e, rest))
    (hp : pastUntil untilUs e.time_us = false) (hc : e.seq ∉ s.canceled) :
    runLoop H (fuel + 1) untilUs s =
      (e :: (runLoop H fuel untilUs
          (dispatchStep H e { s with heap := rest, time_us := e.time_us })).1,
       (runLoop H fuel untilUs
          (dispatchStep H e { s with heap := rest, time_us := e.time_us })).2) := by
  simp [runLoop, h, hp, hc]

/-- The seq inequality relation on events is symmetric. -/
theorem seq_ne_symm : Symmetric (fun a b : Ev => a.seq ≠ b.seq) :=
  fun _ _ h => h.symm

/-- Main induction for the ordering guarantee: under a monotone
handler and a well-formed heap, every dispatched event dominates the
lower bound and the dispatch log is strictly increasing. -/
theorem runLoop_lex_aux (H : HandlerFn) (hH : HandlerMono H) :
    ∀ (fuel : ℕ) (untilUs : Option ℤ) (s : LoopState) (lb : Option Ev),
      WFheap s → (∀ e ∈ s.heap, lbLt lb e) →
      (∀ x ∈ (runLoop H fuel untilUs s).1, lbLt lb x) ∧
      (runLoop H fuel untilUs s).1.Pairwise evLexLt := by
  intro fuel
  induction fuel with
  | zero =>
    intro untilUs s lb hWF hlb
    exact ⟨fun x hx => absurd hx (List.not_mem_nil x), List.Pairwise.nil⟩
  | succ fuel ih =>
    intro untilUs s lb hWF hlb
    cases hpop : popMin s.heap with
    | none =>
      rw [runLoop_succ_none H fuel untilUs s hpop]
      exact ⟨fun x hx => absurd hx (List.not_mem_nil x), List.Pairwise.nil⟩
    | some pr =>
      obtain ⟨e, rest⟩ := pr
      have hperm := popMin_perm s.heap e rest hpop
      have hmemE : e ∈ s.heap := hperm.mem_iff.mpr (List.mem_cons_self e rest)
      have hrestmem : ∀ x ∈ rest, x ∈ s.heap :=
        fun x hx => hperm.mem_iff.mpr (List.mem_cons_of_mem e hx)
      have hpw : (e :: rest).Pairwise (fun a b => a.seq ≠ b.seq) :=
        (hperm.pairwise_iff fun hxy => Ne.symm hxy).mp hWF.2
      have hWF1 : WFheap { s with heap := rest, time_us := e.time_us } :=
        ⟨fun x hx => hWF.1 x (hrestmem x hx), (List.pairwise_cons.mp hpw).2⟩
      cases hp : pastUntil untilUs e.time_us with
      | true =>
        rw [runLoop_succ_past H fuel untilUs s e rest hpop hp]
        exact ⟨fun x hx => absurd hx (List.not_mem_nil x), List.Pairwise.nil⟩
      | false =>
        by_cases hcan : e.seq ∈ s.canceled
        · rw [runLoop_succ_canceled H fuel untilUs s e rest hpop hp hcan]
          refine ih untilUs _ lb ?_ ?_
          · exact ⟨fun x hx => hWF.1 x (hrestmem x hx), (List.pairwise_cons.mp hpw).2⟩
          · exact fun x hx => hlb x (hrestmem x hx)
        · rw [runLoop_succ_dispatch H fuel untilUs s e rest hpop hp hcan]
          have hseqE : e.seq < s.counter := hWF.1 e hmemE
          have hrest_le := popMin_le s.heap e rest hpop
          have hrest_ne : ∀ x ∈ rest, e.seq ≠ x.seq := (List.pairwise_cons.mp hpw).1
          have hrest_lt : ∀ x ∈ rest, evLexLt e x :=
            fun x hx => evLexLt_of_le_ne (hrest_le x hx) (hrest_ne x hx)
          have hWF2 : WFheap (dispatchStep H e { s with heap := rest, time_us := e.time_us }) :=
            scheduleAll_WF _ _ hWF1
          have hbound : ∀ x ∈ (dispatchStep H e
              { s with heap := rest, time_us := e.time_us }).heap, lbLt (some e) x := by
            intro x hx
            rcases scheduleAll_mem _ _ x hx with hx1 | ⟨hcle, p, hpmem, ht⟩
            · exact hrest_lt x hx1
            · have htle : e.time_us ≤ x.time_us := by
                rw [ht]
                exact hH e _ p hpmem
              rcases lt_or_eq_of_le htle with hlt | heq2
              · exact Or.inl hlt
              · exact Or.inr ⟨heq2, lt_of_lt_of_le hseqE hcle⟩
          obtain ⟨hlog_lb, hlog_pw⟩ := ih untilUs _ (some e) hWF2 hbound
          constructor
          · intro x hx
            rcases List.mem_cons.mp hx with rfl | hx1
            · exact hlb x hmemE
            · cases lb with
              | none => trivial
              | some a => exact evLexLt_trans (hlb e hmemE) (hlog_lb x hx1)
          · exact List.Pairwise.cons (fun x hx => hlog_lb x hx) hlog_pw

/-- Extract the pairwise relation between two positions of a list. -/
theorem pairwise_split {l1 l2 l3 : List Ev} {A B : Ev}
    (h : (l1 ++ A :: l2 ++ B :: l3).Pairwise evLexLt) : evLexLt A B := by
  have h2 := (List.pairwise_append.mp h).2.2
  exact h2 A (List.mem_append_right _ (List.mem_cons_self _ _)) B (List.mem_cons_self _ _)

/-- C1: under the hypothesis that every handler schedules events
only at times at or after the current simulated time, and starting
from a well-formed heap (all stamped sequence numbers below the
counter and pairwise distinct, as schedule_event maintains), the
dispatch log of run is strictly increasing in the lexicographic
(time_us, seq) order.  In particular, whenever A appears before B in
the log, A.time_us < B.time_us or they are simultaneous with
A.seq < B.seq; since schedule_event assigns strictly increasing
sequence numbers, two equal-time events dispatch in the order they
were scheduled. -/
theorem eventloop_dispatch_order (H : HandlerFn) (fuel : ℕ) (untilUs : Option ℤ)
    (s : LoopState) (hH : HandlerMono H) (hWF : WFheap s) :
    (runLoop H fuel untilUs s).1.Pairwise evLexLt ∧
    ∀ (l1 l2 l3 : List Ev) (A B : Ev),
      (runLoop H fuel untilUs s).1 = l1 ++ A :: l2 ++ B :: l3 → evLexLt A B := by
  have h := runLoop_lex_aux H hH fuel untilUs s none hWF (fun e _ => trivial)
  refine ⟨h.2, ?_⟩
  intro l1 l2 l3 A B heq
  exact pairwise_split (heq ▸ h.2)

/-- C1 witness: with the trivial handler and two queued events at
times 3 and 5, the log dispatches them in strictly increasing
order. -/
theorem eventloop_dispatch_order_witness :
    evLexLt { time_us := 3, ev_type := EvType.REQUEST_COMPLETE, seq := 1 }
            { time_us := 5, ev_type := EvType.REQUEST_ARRIVAL, seq := 0 } :=
  (eventloop_dispatch_order H0 3 none c1state
      (fun _ _ p hp => absurd hp (List.not_mem_nil p))
      (by constructor
          · decide
          · decide)).2
    [] [] [] _ _ (by decide)

/-- Canceled events are never dispatched: a sequence number in the
tombstone set at the start of a run never appears in the dispatch
log (handlers can only add tombstones, never remove them). -/
theorem runLoop_skips_canceled (H : HandlerFn) :
    ∀ (fuel : ℕ) (untilUs : Option ℤ) (s : LoopState) (cseq : ℕ), cseq ∈ s.canceled →
      ∀ x ∈ (runLoop H fuel untilUs s).1, x.seq ≠ cseq := by
  intro fuel
  induction fuel with
  | zero =>
    intro untilUs s cseq hc x hx
    exact absurd hx (List.not_mem_nil x)
  | succ fuel ih =>
    intro untilUs s cseq hc x hx
    cases hpop : popMin s.heap with
    | none =>
      rw [runLoop_succ_none H fuel untilUs s hpop] at hx
      exact absurd hx (List.not_mem_nil x)
    | some pr =>
      obtain ⟨e, rest⟩ := pr
      cases hp : pastUntil untilUs e.time_us with
      | true =>
        rw [runLoop_succ_past H fuel untilUs s e rest hpop hp] at hx
        exact absurd hx (List.not_mem_nil x)
      | false =>
        by_cases hcan : e.seq ∈ s.canceled
        · rw [runLoop_succ_canceled H fuel untilUs s e rest hpop hp hcan] at hx
          exact ih untilUs { s with heap := rest } cseq hc x hx
        · rw [runLoop_succ_dispatch H fuel untilUs s e rest hpop hp hcan] at hx
          rcases List.mem_cons.mp hx with rfl | hx1
          · exact fun heq => hcan (heq ▸ hc)
          · refine ih untilUs _ cseq ?_ x hx1
            show cseq ∈ (dispatchStep H e { s with heap := rest, time_us := e.time_us }).canceled
            unfold dispatchStep cancelMany
            rw [scheduleAll_canceled]
            exact List.mem_append_left _ hc

/-- When run stops on its own with until_us set, every event still
queued lies strictly past until_us. -/
theorem runLoop_until_stops (H : HandlerFn) :
    ∀ (fuel : ℕ) (u : ℤ) (s : LoopState),
      (runLoop H fuel (some u) s).2.2 = true →
      ∀ e ∈ (runLoop H fuel (some u) s).2.1.heap, u < e.time_us := by
  intro fuel
  induction fuel with
  | zero =>
    intro u s hdone
    exact absurd hdone (by simp [runLoop])
  | succ fuel ih =>
    intro u s hdone e he
    cases hpop : popMin s.heap with
    | none =>
      rw [runLoop_succ_none H fuel (some u) s hpop] at he
      have hnil : s.heap = [] := popMin_eq_none s.heap hpop
      rw [hnil] at he
      exact absurd he (List.not_mem_nil e)
    | some pr =>
      obtain ⟨m, rest⟩ := pr
      cases hp : pastUntil (some u) m.time_us with
      | true =>
        rw [runLoop_succ_past H fuel (some u) s m rest hpop hp] at he
        have hum : u < m.time_us := by simpa [pastUntil] using hp
        rcases List.mem_cons.mp he with rfl | he1
        · exact hum
        · exact lt_of_lt_of_le hum (evLexLe_time (popMin_le s.heap m rest hpop e he1))
      | false =>
        by_cases hcan : m.seq ∈ s.canceled
        · rw [runLoop_succ_canceled H fuel (some u) s m rest hpop hp hcan] at hdone he
          exact ih u _ hdone e he
        · rw [runLoop_succ_dispatch H fuel (some u) s m rest hpop hp hcan] at hdone he
          exact ih u _ hdone e he

/-- When no handler cancels anything, run leaves the tombstone set
untouched: stopping at until_us does not cancel queued events. -/
theorem runLoop_no_new_cancels (H : HandlerFn) (hH2 : ∀ e st, (H e st).2 = []) :
    ∀ (fuel : ℕ) (untilUs : Option ℤ) (s : LoopState),
      (runLoop H fuel untilUs s).2.1.canceled = s.canceled := by
  intro fuel
  induction fuel with
  | zero => intro untilUs s; rfl
  | succ fuel ih =>
    intro untilUs s
    cases hpop : popMin s.heap with
    | none => rw [runLoop_succ_none H fuel untilUs s hpop]
    | some pr =>
      obtain ⟨e, rest⟩ := pr
      cases hp : pastUntil untilUs e.time_us with
      | true => rw [runLoop_succ_past H fuel untilUs s e rest hpop hp]
      | false =>
        by_cases hcan : e.seq ∈ s.canceled
        · rw [runLoop_succ_canceled H fuel untilUs s e rest hpop hp hcan]
          exact ih untilUs _
        · rw [runLoop_succ_dispatch H fuel untilUs s e rest hpop hp hcan]
          rw [ih untilUs _]
          show (dispatchStep H e { s with heap := rest, time_us := e.time_us }).canceled
            = s.canceled
          unfold dispatchStep cancelMany
          rw [scheduleAll_canceled, hH2]
          simp

/-- C9: cancel_event is a tombstone: it marks the event canceled
without removing it from the heap; a tombstoned sequence number is
never dispatched by run (its handler fires no side effects); and a
run with until_us that stops on its own leaves exactly the
strictly-later events queued, with the tombstone set unchanged when
handlers cancel nothing. -/
theorem eventloop_cancellation_semantics :
    (∀ (s : LoopState) (e : Ev),
      (cancel_event s e).heap = s.heap ∧ e.seq ∈ (cancel_event s e).canceled) ∧
    (∀ (H : HandlerFn) (fuel : ℕ) (untilUs : Option ℤ) (s : LoopState) (cseq : ℕ),
      cseq ∈ s.canceled → ∀ x ∈ (runLoop H fuel untilUs s).1, x.seq ≠ cseq) ∧
    (∀ (H : HandlerFn) (fuel : ℕ) (u : ℤ) (s : LoopState),
      (runLoop H fuel (some u) s).2.2 = true →
      ∀ e ∈ (runLoop H fuel (some u) s).2.1.heap, u < e.time_us) ∧
    (∀ (H : HandlerFn), (∀ e st, (H e st).2 = []) →
      ∀ (fuel : ℕ) (untilUs : Option ℤ) (s : LoopState),
        (runLoop H fuel untilUs s).2.1.canceled = s.canceled) := by
  refine ⟨?_, ?_, ?_, ?_⟩
  · intro s e
    exact ⟨rfl, List.mem_cons_self _ _⟩
  · exact runLoop_skips_canceled
  · exact runLoop_until_stops
  · intro H hH2
    exact runLoop_no_new_cancels H hH2

/-- C9 witness: in c9state the seq 0 event is tombstoned; the seq 1
event, which the run does dispatch, is distinct from it. -/
theorem eventloop_cancellation_semantics_witness :
    ({ time_us := 6, ev_type := EvType.REQUEST_ARRIVAL, seq := 1 } : Ev).seq ≠ 0 :=
  eventloop_cancellation_semantics.2.1 H0 3 none c9state 0 (by decide)
    { time_us := 6, ev_type := EvType.REQUEST_ARRIVAL, seq := 1 } (by decide)

end FTLSim
